import Mathlib

/-!
Shallow embedding of BalderJS (`src/balder.ts`, `server.js`) in Lean 4.

JavaScript numbers are modelled as rationals (`ℚ`): every arithmetic
operation the embedded code performs (addition, subtraction,
multiplication, division, `Math.floor`) is exact on the inputs that occur,
so `ℚ` matches the source semantics on all modelled runs.  JS arrays are
`List`s, `undefined`-returning lookups are `Option`s, and the DOM/canvas
side effects are modelled as explicit operation lists over an abstract
pixel canvas.
-/

namespace Balder

/-! ## Hitbox (`class Hitbox`, balder.ts) -/

/-- `class Hitbox`: axis-aligned rectangle with mutable `x`, `y`,
`width`, `height`. -/
structure Hitbox where
  x : ℚ
  y : ℚ
  width : ℚ
  height : ℚ
deriving DecidableEq, Repr

/-- `Hitbox.intersects(other)`:
`this.x + this.width > other.x && this.x < other.x + other.width &&
 this.y + this.height > other.y && this.y < other.y + other.height`. -/
def Hitbox.intersects (a other : Hitbox) : Bool :=
  a.x + a.width > other.x && a.x < other.x + other.width &&
  a.y + a.height > other.y && a.y < other.y + other.height

/-- `Hitbox.contains(x, y)`:
`this.x + this.width > x && this.x <= x &&
 this.y + this.height > y && this.y <= y`. -/
def Hitbox.contains (h : Hitbox) (px py : ℚ) : Bool :=
  h.x + h.width > px && h.x ≤ px &&
  h.y + h.height > py && h.y ≤ py

/-! ## Sprite (`class Sprite`, balder.ts)

Only the animation-timing state touched by `update()` and the
`frames` setter is embedded (the spritesheet geometry fields feed
`draw()` only, which is pure canvas output). -/

/-- Mutable animation state of `class Sprite`: current frame `index`,
`remainingTime` budget in milliseconds, configured `frames` list,
`loop` flag, `finished` flag, `framesPerSecond`. -/
structure SpriteState where
  index : ℕ
  remainingTime : ℚ
  frames : List ℤ
  loop : Bool
  finished : Bool
  framesPerSecond : ℚ
deriving DecidableEq, Repr

/-- `Sprite.update()` (without the trailing `this.draw()` canvas call):
decrement `remainingTime` by `deltaTime`; if it became negative, advance
the index — `this.index >= this._frames.length - 1` (JS number
arithmetic, hence the `ℤ` comparison) wraps to `0` when `loop` and sets
`_finished` otherwise, while a non-final index increments — and
replenish the budget by `1000 / framesPerSecond`. -/
def SpriteState.update (s : SpriteState) (deltaTime : ℚ) : SpriteState :=
  let rt := s.remainingTime - deltaTime
  if rt < 0 then
    if (s.frames.length : ℤ) - 1 ≤ (s.index : ℤ) then
      if s.loop then
        { s with index := 0, remainingTime := rt + 1000 / s.framesPerSecond }
      else
        { s with finished := true, remainingTime := rt + 1000 / s.framesPerSecond }
    else
      { s with index := s.index + 1, remainingTime := rt + 1000 / s.framesPerSecond }
  else
    { s with remainingTime := rt }

/-- `set frames(value)`:
`if (value.length != this._frames.length || value.some((v, i) => v != this._frames[i])) this.index = 0;
 this._frames = value`.  A JS `this._frames[i]` that is out of range is
`undefined`, and `v != undefined` holds for every number `v`; the
`Option`-valued lookup reproduces that. -/
def SpriteState.setFrames (s : SpriteState) (value : List ℤ) : SpriteState :=
  if value.length ≠ s.frames.length ∨
      ∃ i : Fin value.length, s.frames.get? i.val ≠ some (value.get i) then
    { s with index := 0, frames := value }
  else
    { s with frames := value }

/-! ## Grid (`class Grid`, balder.ts)

A `Grid` stores a `rows × columns` array of `Cell`s; cell `(i, j)` is
constructed at pixel position
`(x + j*(cellWidth+1) + 1, y + i*(cellHeight+1) + 1)` with size
`cellWidth × cellHeight`.  The embedding keeps the geometry and
identifies a cell by its `(row, column)` pair. -/

/-- Geometry of `class Grid`: constructor arguments `rows`, `columns`,
`x`, `y`, `width`, `height`. -/
structure Grid where
  rows : ℕ
  columns : ℕ
  x : ℚ
  y : ℚ
  width : ℚ
  height : ℚ
deriving DecidableEq, Repr

/-- `this.cellWidth = (width - columns - 1) / columns`. -/
def Grid.cellWidth (g : Grid) : ℚ := (g.width - g.columns - 1) / g.columns

/-- `this.cellHeight = (height - rows - 1) / rows`. -/
def Grid.cellHeight (g : Grid) : ℚ := (g.height - g.rows - 1) / g.rows

/-- x-coordinate of cell `(i, j)`: `x + j * (this.cellWidth + 1) + 1`. -/
def Grid.cellX (g : Grid) (j : ℕ) : ℚ := g.x + j * (g.cellWidth + 1) + 1

/-- y-coordinate of cell `(i, j)`: `y + i * (this.cellHeight + 1) + 1`. -/
def Grid.cellY (g : Grid) (i : ℕ) : ℚ := g.y + i * (g.cellHeight + 1) + 1

/-- `Grid.cellFromPoint(x, y)`:
`column = Math.floor((x - this.x) / (this.cellWidth + 1))`,
`row = Math.floor((y - this.y) / (this.cellHeight + 1))`,
`return this.cells[row]?.[column]` — a JS array lookup that yields
`undefined` (`none`) whenever `row` or `column` is outside
`[0, rows) × [0, columns)`.  The result is the `(row, column)` identity
of the returned cell. -/
def Grid.cellFromPoint (g : Grid) (px py : ℚ) : Option (ℕ × ℕ) :=
  let column : ℤ := ⌊(px - g.x) / (g.cellWidth + 1)⌋
  let row : ℤ := ⌊(py - g.y) / (g.cellHeight + 1)⌋
  if 0 ≤ row ∧ row < (g.rows : ℤ) ∧ 0 ≤ column ∧ column < (g.columns : ℤ) then
    some (row.toNat, column.toNat)
  else
    none

/-- The pixel rectangle of cell `(i, j)` contains `(px, py)`:
`(i, j)` is a real cell of the grid and the point lies in the half-open
pixel rectangle of that cell. -/
def Grid.cellContains (g : Grid) (i j : ℕ) (px py : ℚ) : Prop :=
  i < g.rows ∧ j < g.columns ∧
  g.cellX j ≤ px ∧ px < g.cellX j + g.cellWidth ∧
  g.cellY i ≤ py ∧ py < g.cellY i + g.cellHeight

/-! ## `activated` edge trigger (`Grid.activated` / `Button.activated`)

The two getters have the identical control skeleton

```
if (touchscreen.touched || mouse.buttons.some(v => v)) {
    if (this.activatable) {
        this.activatable = false;
        ... return <hit test>;
    }
    return false;
}
this.activatable = true;
return false;
```

differing only in the hit test (`cellFromPoint(x, y)` found a cell for
`Grid`, `this.hb.contains(x, y)` for `Button`).  The embedding threads
the mutable `activatable` flag explicitly and takes the per-read inputs
`down` (`touched || mouse button held`) and `hit` (the hit-test result)
as parameters. -/

/-- One read of the `activated` getter: given the current `activatable`
flag, whether a touch or mouse button is down, and whether the hit test
succeeds, return the new `activatable` flag and the getter's value. -/
def activatedRead (activatable down hit : Bool) : Bool × Bool :=
  if down then
    if activatable then (false, hit) else (false, false)
  else
    (true, false)

/-- A sequence of reads of `activated`, one per `(down, hit)` input pair,
threading the `activatable` flag; returns the list of getter values. -/
def activatedRun (activatable : Bool) : List (Bool × Bool) → List Bool
  | [] => []
  | (down, hit) :: rest =>
      let r := activatedRead activatable down hit
      r.2 :: activatedRun r.1 rest

/-! ## Expected-output comparison (`window load` listener, balder.ts)

On load, when the `o` query parameter is present and the actual output
differs from the decoded expected output `oValue`, the listener runs

```
let offset = 0;
while (output[offset] == oValue[offset]) { offset++ }
const correct = output.slice(0, offset);
const incorrect = output.slice(offset) + " ".repeat(Math.max(0, oValue.length - output.length));
```

and wraps `correct` in a `class="correct"` span and `incorrect` in a
`class="incorrect"` span; when the strings are equal the whole output is
wrapped in a single `correct` span.  Strings are modelled as `List Char`;
an out-of-range JS index is `undefined`, which never `==`-equals a
character, so the loop stops at the end of the shorter string. -/

/-- The `offset` computed by the `while` loop: length of the longest
common prefix (the loop only runs when the strings differ, so the
`undefined == undefined` case is unreachable in the source; here it
conservatively stops). -/
def lcpOffset : List Char → List Char → ℕ
  | a :: as, b :: bs => if a = b then lcpOffset as bs + 1 else 0
  | _, _ => 0

/-- The two marked spans produced by the comparison. -/
structure Marked where
  correct : List Char
  incorrect : List Char
deriving DecidableEq, Repr

/-- The on-load comparison of actual `output` against expected `oValue`:
equal strings are marked entirely correct; otherwise the common prefix
of length `offset` is the correct span and
`output.slice(offset) + " ".repeat(max 0 (oValue.length - output.length))`
is the incorrect span (`ℕ`-subtraction is the `Math.max(0, ·)`). -/
def compareOutput (output oValue : List Char) : Marked :=
  if output = oValue then
    ⟨output, []⟩
  else
    let offset := lcpOffset output oValue
    ⟨output.take offset,
     output.drop offset ++ List.replicate (oValue.length - output.length) ' '⟩

/-! ## Cell and the canvas (`class Cell`, balder.ts)

`Cell.draw()` performs canvas calls; the embedding records them as a
list of drawing operations and gives them pixel semantics on an
abstract canvas `ℚ × ℚ → ℕ` (value `0` = cleared).  Colors, images and
the pixels an operation writes inside its footprint are coded as `ℕ`;
the claims only depend on which pixels an operation may change.  The
footprint of `fillText` is platform-dependent (font metrics), so the
semantics is parameterised by it; a custom-draw callback is arbitrary
user code and is modelled by the list of operations it performs. -/

/-- A canvas drawing operation performed by the embedded code:
`ctx.clearRect`, `ctx.fillRect` (the fill branch of `rectangle`),
`ctx.drawImage` with a destination rectangle, or a centered
`ctx.fillText` (the `text` helper with `"center"` anchors). -/
inductive DrawOp where
  | clearRect (x y w h : ℚ)
  | fillRect (x y w h : ℚ) (color : ℕ)
  | drawImage (img : ℕ) (x y w h : ℚ)
  | drawText (s : List Char) (cx cy fontSize : ℚ) (color : ℕ)
deriving DecidableEq, Repr

/-- The abstract pixel canvas. -/
def Canvas : Type := ℚ × ℚ → ℕ

/-- Membership of a point in the half-open pixel rectangle of a
rectangle-shaped canvas operation. -/
def inRect (x y w h : ℚ) (p : ℚ × ℚ) : Bool :=
  decide (x ≤ p.1 ∧ p.1 < x + w ∧ y ≤ p.2 ∧ p.2 < y + h)

/-- Platform-determined footprint of a `fillText` call: which points a
given string, centre and font size cover. -/
def TextFootprint : Type := List Char → ℚ → ℚ → ℚ → ℚ × ℚ → Bool

/-- Pixel semantics of one operation: points inside the footprint take
the operation's value, every other point keeps the canvas value. -/
def applyOp (tf : TextFootprint) (c : Canvas) : DrawOp → Canvas
  | .clearRect x y w h => fun p => if inRect x y w h p then 0 else c p
  | .fillRect x y w h color => fun p => if inRect x y w h p then color else c p
  | .drawImage img x y w h => fun p => if inRect x y w h p then img else c p
  | .drawText s cx cy fs color => fun p => if tf s cx cy fs p then color else c p

/-- Pixel semantics of a list of operations, applied in order. -/
def applyOps (tf : TextFootprint) (c : Canvas) : List DrawOp → Canvas
  | [] => c
  | op :: rest => applyOps tf (applyOp tf c op) rest

/-- State of a `Cell`: readonly geometry (`row`, `column`, `x`, `y`,
`width`, `height`), the mutable `fontSize`/`textColor` styling and the
four drawable properties `_color`, `_image`, `_text`, `_custom`. -/
structure CellState where
  row : ℕ
  column : ℕ
  x : ℚ
  y : ℚ
  width : ℚ
  height : ℚ
  fontSize : ℚ
  textColor : ℕ
  color : Option ℕ
  image : Option ℕ
  text : Option (List Char)
  custom : Option (List DrawOp)

/-- `Cell.draw()`:
`clear(x, y, width, height)`; if `_color`, `rectangle(x+0.5, y+0.5,
width-1, height-1, _color)`; if `_image`, `ctx.drawImage(_image, x, y,
width, height)`; if `_text`, centered `text(...)` at
`(x + width/2, y + height/2)` with `fontSize` and `textColor`; if
`_custom`, run the callback (its recorded operations). -/
def CellState.drawOps (c : CellState) : List DrawOp :=
  DrawOp.clearRect c.x c.y c.width c.height ::
  ((c.color.map fun col =>
      [DrawOp.fillRect (c.x + 1/2) (c.y + 1/2) (c.width - 1) (c.height - 1) col]).getD []
  ++ (c.image.map fun img =>
      [DrawOp.drawImage img c.x c.y c.width c.height]).getD []
  ++ (c.text.map fun s =>
      [DrawOp.drawText s (c.x + c.width / 2) (c.y + c.height / 2) c.fontSize c.textColor]).getD []
  ++ c.custom.getD [])

/-- `set color(value) { this._color = value; this.draw(); }` — the new
state together with the operations of the immediate redraw. -/
def CellState.setColor (c : CellState) (v : Option ℕ) : CellState × List DrawOp :=
  let c' := { c with color := v }
  (c', c'.drawOps)

/-- `set image(value) { this._image = value; this.draw(); }`. -/
def CellState.setImage (c : CellState) (v : Option ℕ) : CellState × List DrawOp :=
  let c' := { c with image := v }
  (c', c'.drawOps)

/-- The argument of the `text` setter:
`string | [value, fontSize?, color?] | null`. -/
inductive TextVal where
  | null
  | plain (s : List Char)
  | styled (s : List Char) (fontSize : Option ℚ) (color : Option ℕ)

/-- `set text(value)`: `null` clears `_text`; a plain string sets it; a
tuple also overrides `fontSize`/`textColor` when present (`??` keeps the
old value); then `this.draw()`. -/
def CellState.setText (c : CellState) (v : TextVal) : CellState × List DrawOp :=
  let c' :=
    match v with
    | .null => { c with text := none }
    | .plain s => { c with text := some s }
    | .styled s fs col =>
        { c with text := some s, fontSize := fs.getD c.fontSize,
                 textColor := col.getD c.textColor }
  (c', c'.drawOps)

/-- `set custom(value) { this._custom = value; this.draw(); }`. -/
def CellState.setCustom (c : CellState) (v : Option (List DrawOp)) :
    CellState × List DrawOp :=
  let c' := { c with custom := v }
  (c', c'.drawOps)

/-! ## Dev server (`server.js`)

`buildOnce` wraps the two `esbuild.build` calls, the success log and
`browserSync.reload()` in `try { ... } catch (err) { console.error(...) }`;
the `chokidar` watcher calls `buildOnce()` once per filesystem event.
The embedding records the externally visible events; a build attempt's
outcome (the bundler succeeding or throwing) is an input. -/

/-- Externally visible dev-server event: the per-change log line, the
success log, the browser reload, or the `console.error` of the catch
block. -/
inductive ServerEvent where
  | changeLogged (path : String)
  | built
  | reloaded
  | errorLogged (err : String)
deriving DecidableEq, Repr

/-- `buildOnce()` given the bundler outcome: on success it logs
`Built → ...` and reloads the browsers; a thrown error is caught and
logged by `console.error`, and the function returns normally (the total
return type: no exception escapes, nothing is retried). -/
def buildOnce : Except String Unit → List ServerEvent
  | .ok _ => [.built, .reloaded]
  | .error e => [.errorLogged e]

/-- The watch loop: each filesystem event logs the change and runs
exactly one `buildOnce()` with that build's outcome. -/
def watchLoop : List (String × Except String Unit) → List ServerEvent
  | [] => []
  | e :: rest => (ServerEvent.changeLogged e.1 :: buildOnce e.2) ++ watchLoop rest

/-- Marker for the end of one build attempt (its success or error log). -/
def buildAttemptEnd : ServerEvent → Bool
  | .built => true
  | .errorLogged _ => true
  | _ => false

/-! ## Theorems -/

/-- Propositional characterization of `Hitbox.intersects`. -/
lemma Hitbox.intersects_iff (a b : Hitbox) :
    (a.intersects b = true) ↔
      (b.x < a.x + a.width ∧ a.x < b.x + b.width ∧
       b.y < a.y + a.height ∧ a.y < b.y + b.height) := by
  simp only [Hitbox.intersects, Bool.and_eq_true, decide_eq_true_eq, gt_iff_lt]
  tauto

/-- Propositional characterization of `Hitbox.contains`. -/
lemma Hitbox.contains_iff (h : Hitbox) (px py : ℚ) :
    (h.contains px py = true) ↔
      (px < h.x + h.width ∧ h.x ≤ px ∧ py < h.y + h.height ∧ h.y ≤ py) := by
  simp only [Hitbox.contains, Bool.and_eq_true, decide_eq_true_eq, gt_iff_lt]
  tauto

/-- C4: for every pair of hitboxes `a` and `b`, `a.intersects(b)` equals
`b.intersects(a)`, and two hitboxes whose edges exactly touch on any of
the four sides (e.g. `a.x + a.width == b.x`) do not intersect, because
all four comparisons are strict. -/
theorem hitbox_intersects_symm_touching (a b : Hitbox) :
    a.intersects b = b.intersects a ∧
    (a.x + a.width = b.x → a.intersects b = false) ∧
    (b.x + b.width = a.x → a.intersects b = false) ∧
    (a.y + a.height = b.y → a.intersects b = false) ∧
    (b.y + b.height = a.y → a.intersects b = false) := by
  have hiff : (a.intersects b = true) ↔ (b.intersects a = true) := by
    rw [Hitbox.intersects_iff, Hitbox.intersects_iff]
    tauto
  refine ⟨?_, ?_, ?_, ?_, ?_⟩
  · rcases Bool.eq_false_or_eq_true (a.intersects b) with hab | hab <;>
      rcases Bool.eq_false_or_eq_true (b.intersects a) with hba | hba <;>
      simp_all
  all_goals
    intro h
    rcases Bool.eq_false_or_eq_true (a.intersects b) with hab | hab
    · rw [Hitbox.intersects_iff] at hab
      obtain ⟨h1, h2, h3, h4⟩ := hab
      linarith
    · exact hab

/-- Witness for C4: two concrete hitboxes sharing the edge `x = 2` do
not intersect. -/
theorem hitbox_intersects_symm_touching_witness :
    Hitbox.intersects ⟨0, 0, 2, 2⟩ ⟨2, 0, 2, 2⟩ = false :=
  (hitbox_intersects_symm_touching ⟨0, 0, 2, 2⟩ ⟨2, 0, 2, 2⟩).2.1 (by norm_num)

/-- C9: `Hitbox.contains` is half-open — points on the left and top
edges (with the other coordinate in range) are contained, points on the
right and bottom edges are not; the top-left corner is contained and the
bottom-right corner is not. -/
theorem hitbox_contains_half_open (h : Hitbox)
    (hw : 0 < h.width) (hh : 0 < h.height) :
    (∀ py, h.y ≤ py → py < h.y + h.height → h.contains h.x py = true) ∧
    (∀ px, h.x ≤ px → px < h.x + h.width → h.contains px h.y = true) ∧
    (∀ py, h.contains (h.x + h.width) py = false) ∧
    (∀ px, h.contains px (h.y + h.height) = false) ∧
    h.contains h.x h.y = true ∧
    h.contains (h.x + h.width) (h.y + h.height) = false := by
  refine ⟨?_, ?_, ?_, ?_, ?_, ?_⟩
  · intro py h1 h2
    rw [Hitbox.contains_iff]
    exact ⟨by linarith, le_refl _, h2, h1⟩
  · intro px h1 h2
    rw [Hitbox.contains_iff]
    exact ⟨h2, h1, by linarith, le_refl _⟩
  · intro py
    rcases Bool.eq_false_or_eq_true (h.contains (h.x + h.width) py) with hc | hc
    · rw [Hitbox.contains_iff] at hc
      obtain ⟨h1, h2, h3, h4⟩ := hc
      linarith
    · exact hc
  · intro px
    rcases Bool.eq_false_or_eq_true (h.contains px (h.y + h.height)) with hc | hc
    · rw [Hitbox.contains_iff] at hc
      obtain ⟨h1, h2, h3, h4⟩ := hc
      linarith
    · exact hc
  · rw [Hitbox.contains_iff]
    exact ⟨by linarith, le_refl _, by linarith, le_refl _⟩
  · rcases Bool.eq_false_or_eq_true (h.contains (h.x + h.width) (h.y + h.height)) with hc | hc
    · rw [Hitbox.contains_iff] at hc
      obtain ⟨h1, h2, h3, h4⟩ := hc
      linarith
    · exact hc

/-- Witness for C9 at the concrete hitbox `(0, 0, 2, 3)`. -/
theorem hitbox_contains_half_open_witness :
    (Hitbox.contains ⟨0, 0, 2, 3⟩ 0 0 = true) ∧
    (Hitbox.contains ⟨0, 0, 2, 3⟩ (0 + 2) (0 + 3) = false) := by
  have h := hitbox_contains_half_open ⟨0, 0, 2, 3⟩ (by norm_num) (by norm_num)
  exact ⟨h.2.2.2.2.1, h.2.2.2.2.2⟩

/-- C2: `Sprite.update()` decrements the budget by `deltaTime`; exactly
when the budget becomes negative the index advances — incrementing below
the last frame, wrapping to `0` at the last frame when looping, setting
`finished` at the last frame otherwise — and the budget is replenished
by `1000 / framesPerSecond`; a non-negative budget leaves everything but
the budget unchanged. -/
theorem sprite_update_spec (s : SpriteState) (dt : ℚ) :
    (0 ≤ s.remainingTime - dt →
      s.update dt = { s with remainingTime := s.remainingTime - dt }) ∧
    (s.remainingTime - dt < 0 →
      (s.update dt).remainingTime
          = s.remainingTime - dt + 1000 / s.framesPerSecond ∧
      (s.index + 1 < s.frames.length →
        (s.update dt).index = s.index + 1 ∧ (s.update dt).finished = s.finished) ∧
      (s.frames.length ≤ s.index + 1 → s.loop = true →
        (s.update dt).index = 0 ∧ (s.update dt).finished = s.finished) ∧
      (s.frames.length ≤ s.index + 1 → s.loop = false →
        (s.update dt).index = s.index ∧ (s.update dt).finished = true)) := by
  constructor
  · intro h
    simp only [SpriteState.update]
    rw [if_neg (not_lt.2 h)]
  · intro h
    simp only [SpriteState.update]
    rw [if_pos h]
    by_cases hL : (s.frames.length : ℤ) - 1 ≤ (s.index : ℤ)
    · rw [if_pos hL]
      by_cases hloop : s.loop = true
      · rw [if_pos hloop]
        exact ⟨rfl, fun hlt => absurd hlt (by omega), fun _ _ => ⟨rfl, rfl⟩,
          fun _ hc => absurd hc (by simp [hloop])⟩
      · rw [if_neg hloop]
        have hloop' : s.loop = false := by simpa using hloop
        exact ⟨rfl, fun hlt => absurd hlt (by omega), fun _ hc => absurd hc (by simp [hloop']),
          fun _ _ => ⟨rfl, rfl⟩⟩
    · rw [if_neg hL]
      exact ⟨rfl, fun _ => ⟨rfl, rfl⟩, fun hc => absurd hc (by omega),
        fun hc => absurd hc (by omega)⟩

/-- Witness for C2 at the concrete sprite
`⟨index 0, budget 10, frames [0,1,2], loop, not finished, 40 fps⟩`
updated with `deltaTime = 50`. -/
theorem sprite_update_spec_witness :
    (SpriteState.update ⟨0, 10, [0, 1, 2], true, false, 40⟩ 50).index = 1 ∧
    (SpriteState.update ⟨0, 10, [0, 1, 2], true, false, 40⟩ 50).remainingTime
      = 10 - 50 + 1000 / 40 := by
  have h := sprite_update_spec ⟨0, 10, [0, 1, 2], true, false, 40⟩ 50
  have h2 := h.2 (by norm_num)
  exact ⟨(h2.2.1 (by norm_num)).1, h2.1⟩

/-- C10: the `frames` setter stores the new list and resets the index to
`0` exactly when the new list differs from the old one in length or in
some element; assigning an element-wise identical list (i.e. an equal
list) preserves the index. -/
theorem sprite_setFrames_spec (s : SpriteState) (v : List ℤ) :
    (s.setFrames v).frames = v ∧
    (s.setFrames v).index = (if v = s.frames then s.index else 0) := by
  by_cases hv : v = s.frames
  · have hcond : ¬(v.length ≠ s.frames.length ∨
        ∃ i : Fin v.length, s.frames.get? i.val ≠ some (v.get i)) := by
      rw [hv]
      push_neg
      exact ⟨rfl, fun i => by rw [List.get?_eq_get i.isLt]⟩
    rw [SpriteState.setFrames, if_neg hcond, if_pos hv]
    exact ⟨rfl, rfl⟩
  · have hcond : v.length ≠ s.frames.length ∨
        ∃ i : Fin v.length, s.frames.get? i.val ≠ some (v.get i) := by
      by_cases hlen : v.length = s.frames.length
      · right
        by_contra hall
        push_neg at hall
        refine hv (List.ext_get hlen fun n h₁ h₂ => ?_)
        have hn := hall ⟨n, h₁⟩
        rw [List.get?_eq_get h₂] at hn
        exact (Option.some_injective _ hn).symm
      · exact Or.inl hlen
    rw [SpriteState.setFrames, if_pos hcond, if_neg hv]
    exact ⟨rfl, rfl⟩

/-- Helper: a disarmed `activated` state stays disarmed and yields only
`false` while the pointer remains down. -/
lemma activatedRun_disarmed (trace : List (Bool × Bool))
    (hdown : ∀ p ∈ trace, p.1 = true) :
    activatedRun false trace = List.replicate trace.length false := by
  induction trace with
  | nil => rfl
  | cons p rest ih =>
      obtain ⟨down, hit⟩ := p
      have hd : down = true := hdown (down, hit) (List.mem_cons_self _ _)
      subst hd
      simp only [activatedRun, activatedRead, if_pos rfl, if_neg (by simp : ¬false = true)]
      rw [List.length_cons, List.replicate_succ]
      exact congrArg (false :: ·) (ih fun q hq => hdown q (List.mem_cons_of_mem _ hq))

/-- Helper: `true` never occurs in a run of `false`s. -/
lemma count_true_replicate_false (n : ℕ) :
    (List.replicate n false).count true = 0 := by
  induction n with
  | zero => rfl
  | succ n ih => rw [List.replicate_succ, List.count_cons]; simp [ih]

/-- C5: over any sequence of `activated` reads during which a touch or a
mouse button is continuously down, the getter returns `true` at most
once; a read in which neither is down re-arms the trigger (and itself
returns `false`).  `activatedRead`/`activatedRun` embed the common body
of `Grid.activated` and `Button.activated`. -/
theorem activated_edge_trigger :
    (∀ (a : Bool) (trace : List (Bool × Bool)),
      (∀ p ∈ trace, p.1 = true) → (activatedRun a trace).count true ≤ 1) ∧
    (∀ a hit, activatedRead a false hit = (true, false)) ∧
    (∀ down hit, activatedRead false down hit
        = (if down then (false, false) else (true, false))) := by
  refine ⟨?_, ?_, ?_⟩
  · intro a trace hdown
    cases trace with
    | nil => simp [activatedRun]
    | cons p rest =>
        obtain ⟨down, hit⟩ := p
        have hd : down = true := hdown (down, hit) (List.mem_cons_self _ _)
        subst hd
        have hrest : activatedRun false rest = List.replicate rest.length false :=
          activatedRun_disarmed rest fun q hq => hdown q (List.mem_cons_of_mem _ hq)
        cases a with
        | false =>
            simp [activatedRun, activatedRead, hrest, count_true_replicate_false,
              List.count_cons]
        | true =>
            cases hit <;>
              simp [activatedRun, activatedRead, hrest, count_true_replicate_false,
                List.count_cons]
  · intro a hit
    simp [activatedRead]
  · intro down hit
    cases down <;> simp [activatedRead]

/-- Witness for C5: a concrete all-down trace with the hit test
succeeding every time still activates only once. -/
theorem activated_edge_trigger_witness :
    (activatedRun true [(true, true), (true, true), (true, true)]).count true ≤ 1 :=
  activated_edge_trigger.1 true [(true, true), (true, true), (true, true)] (by decide)

/-- Helper: the `while`-loop offset never exceeds the actual output's
length. -/
lemma lcpOffset_le_length : ∀ a b : List Char, lcpOffset a b ≤ a.length
  | [], [] => Nat.le_refl 0
  | [], _ :: _ => Nat.le_refl 0
  | _ :: _, [] => Nat.zero_le _
  | a :: as, b :: bs => by
      rw [lcpOffset]
      by_cases hab : a = b
      · rw [if_pos hab, List.length_cons]
        exact Nat.succ_le_succ (lcpOffset_le_length as bs)
      · rw [if_neg hab]
        exact Nat.zero_le _

/-- Helper: up to the loop offset, the two strings agree. -/
lemma lcpOffset_take : ∀ a b : List Char,
    a.take (lcpOffset a b) = b.take (lcpOffset a b)
  | [], [] => rfl
  | [], _ :: _ => rfl
  | _ :: _, [] => rfl
  | a :: as, b :: bs => by
      rw [lcpOffset]
      by_cases hab : a = b
      · rw [if_pos hab, List.take_succ_cons, List.take_succ_cons, hab,
          lcpOffset_take as bs]
      · rw [if_neg hab]
        rfl

/-- Helper: the loop offset is the longest agreement: any `m` within the
actual output on which the strings agree is at most the offset. -/
lemma lcpOffset_maximal : ∀ (a b : List Char) (m : ℕ), m ≤ a.length →
    a.take m = b.take m → m ≤ lcpOffset a b
  | _, _, 0, _, _ => Nat.zero_le _
  | [], _, m + 1, hm, _ => absurd hm (by simp)
  | _ :: _, [], m + 1, _, ht => by simp at ht
  | a :: as, b :: bs, m + 1, hm, ht => by
      rw [List.take_succ_cons, List.take_succ_cons] at ht
      obtain ⟨hab, ht'⟩ := List.cons_eq_cons.mp ht
      rw [lcpOffset, if_pos hab]
      exact Nat.succ_le_succ
        (lcpOffset_maximal as bs m (Nat.le_of_succ_le_succ (by simpa using hm)) ht')

/-- C6: when actual and expected output are equal, the whole output is
marked correct; when they differ, the correct span is exactly the
longest common prefix of the two strings (it is a common prefix, and is
maximal among agreements), and the incorrect span is the remainder of
the actual output (padded with spaces up to the expected length). -/
theorem output_comparison_lcp (output oValue : List Char) :
    (output = oValue → compareOutput output oValue = ⟨output, []⟩) ∧
    (output ≠ oValue →
      (compareOutput output oValue).correct
          = output.take (lcpOffset output oValue) ∧
      output.take (lcpOffset output oValue)
          = oValue.take (lcpOffset output oValue) ∧
      (∀ m ≤ output.length, output.take m = oValue.take m →
          m ≤ lcpOffset output oValue) ∧
      (compareOutput output oValue).incorrect
          = output.drop (lcpOffset output oValue)
            ++ List.replicate (oValue.length - output.length) ' ') := by
  constructor
  · intro h
    rw [compareOutput, if_pos h]
  · intro h
    rw [compareOutput, if_neg h]
    exact ⟨rfl, lcpOffset_take output oValue,
      fun m hm ht => lcpOffset_maximal output oValue m hm ht, rfl⟩

/-- Witness for C6 at `output = "ab"`, `oValue = "ac"`. -/
theorem output_comparison_lcp_witness :
    (compareOutput ['a', 'b'] ['a', 'c']).correct
      = ['a', 'b'].take (lcpOffset ['a', 'b'] ['a', 'c']) :=
  ((output_comparison_lcp ['a', 'b'] ['a', 'c']).2 (by decide)).1

/-- C8: a build error is consumed inside `buildOnce` — it is logged and
`buildOnce` returns normally with no retry (the single error log is the
attempt's only effect) — and the watch loop processes every filesystem
event with exactly one build attempt each, before and after any failing
build. -/
theorem server_build_error_handling :
    (∀ e, buildOnce (.error e) = [.errorLogged e]) ∧
    (∀ pre p e post,
      watchLoop (pre ++ (p, .error e) :: post)
        = watchLoop pre
          ++ (ServerEvent.changeLogged p :: [.errorLogged e])
          ++ watchLoop post) ∧
    (∀ events, (watchLoop events).countP buildAttemptEnd = events.length) := by
  refine ⟨fun e => rfl, ?_, ?_⟩
  · intro pre p e post
    induction pre with
    | nil => rfl
    | cons q rest ih =>
        simp [List.cons_append, watchLoop, ih, List.append_assoc]
  · intro events
    induction events with
    | nil => rfl
    | cons q rest ih =>
        obtain ⟨p, o⟩ := q
        cases o <;>
          simp [watchLoop, List.countP_append, List.countP_cons, buildOnce,
            buildAttemptEnd, ih, Nat.add_comm]

/-- Helper: the horizontal cell pitch is `(width - 1) / columns`. -/
lemma Grid.pitchX_eq (g : Grid) (hc : 0 < g.columns) :
    g.cellWidth + 1 = (g.width - 1) / g.columns := by
  have hcq : (g.columns : ℚ) ≠ 0 := by
    exact_mod_cast Nat.pos_iff_ne_zero.mp hc
  rw [Grid.cellWidth]
  field_simp
  ring

/-- Helper: the vertical cell pitch is `(height - 1) / rows`. -/
lemma Grid.pitchY_eq (g : Grid) (hr : 0 < g.rows) :
    g.cellHeight + 1 = (g.height - 1) / g.rows := by
  have hrq : (g.rows : ℚ) ≠ 0 := by
    exact_mod_cast Nat.pos_iff_ne_zero.mp hr
  rw [Grid.cellHeight]
  field_simp
  ring

/-- Helper: with at least one column and a grid wider than its one-pixel
borders, the horizontal pitch is positive. -/
lemma Grid.pitchX_pos (g : Grid) (hc : 0 < g.columns) (hw : 1 < g.width) :
    0 < g.cellWidth + 1 := by
  rw [g.pitchX_eq hc]
  have hcq : (0 : ℚ) < g.columns := by exact_mod_cast hc
  exact div_pos (by linarith) hcq

/-- Helper: the vertical pitch is positive. -/
lemma Grid.pitchY_pos (g : Grid) (hr : 0 < g.rows) (hh : 1 < g.height) :
    0 < g.cellHeight + 1 := by
  rw [g.pitchY_eq hr]
  have hrq : (0 : ℚ) < g.rows := by exact_mod_cast hr
  exact div_pos (by linarith) hrq

/-- Helper: `columns` pitches span the grid width minus the final
border. -/
lemma Grid.columns_mul_pitchX (g : Grid) (hc : 0 < g.columns) :
    (g.columns : ℚ) * (g.cellWidth + 1) = g.width - 1 := by
  have hcq : (g.columns : ℚ) ≠ 0 := by
    exact_mod_cast Nat.pos_iff_ne_zero.mp hc
  rw [g.pitchX_eq hc]
  field_simp

/-- Helper: `rows` pitches span the grid height minus the final
border. -/
lemma Grid.rows_mul_pitchY (g : Grid) (hr : 0 < g.rows) :
    (g.rows : ℚ) * (g.cellHeight + 1) = g.height - 1 := by
  have hrq : (g.rows : ℚ) ≠ 0 := by
    exact_mod_cast Nat.pos_iff_ne_zero.mp hr
  rw [g.pitchY_eq hr]
  field_simp

/-- C1: for a grid with at least one row and column and a width/height
larger than its borders, `cellFromPoint` returns the cell whose pixel
rectangle contains the queried point, computes that cell's column and
row by floor division of the offset from the grid origin by the uniform
pitch `cellWidth + 1` / `cellHeight + 1`, and returns no match for every
point outside the grid's bounds. -/
theorem grid_cellFromPoint_correct (g : Grid)
    (hr : 0 < g.rows) (hc : 0 < g.columns)
    (hw : 1 < g.width) (hh : 1 < g.height) :
    (∀ i j px py, g.cellContains i j px py → g.cellFromPoint px py = some (i, j)) ∧
    (∀ px py, (px < g.x ∨ g.x + g.width ≤ px ∨ py < g.y ∨ g.y + g.height ≤ py) →
      g.cellFromPoint px py = none) ∧
    (∀ px py i j, g.cellFromPoint px py = some (i, j) →
      (i : ℤ) = ⌊(py - g.y) / (g.cellHeight + 1)⌋ ∧
      (j : ℤ) = ⌊(px - g.x) / (g.cellWidth + 1)⌋) := by
  have hpx := g.pitchX_pos hc hw
  have hpy := g.pitchY_pos hr hh
  refine ⟨?_, ?_, ?_⟩
  · rintro i j px py ⟨hir, hjc, hx1, hx2, hy1, hy2⟩
    have hcol : ⌊(px - g.x) / (g.cellWidth + 1)⌋ = (j : ℤ) := by
      rw [Int.floor_eq_iff]
      constructor
      · rw [le_div_iff hpx]
        push_cast
        rw [Grid.cellX] at hx1
        nlinarith
      · rw [div_lt_iff hpx]
        rw [Grid.cellX] at hx2
        push_cast
        nlinarith
    have hrow : ⌊(py - g.y) / (g.cellHeight + 1)⌋ = (i : ℤ) := by
      rw [Int.floor_eq_iff]
      constructor
      · rw [le_div_iff hpy]
        push_cast
        rw [Grid.cellY] at hy1
        nlinarith
      · rw [div_lt_iff hpy]
        rw [Grid.cellY] at hy2
        push_cast
        nlinarith
    simp only [Grid.cellFromPoint, hcol, hrow]
    rw [if_pos ⟨Int.natCast_nonneg i, by exact_mod_cast hir,
      Int.natCast_nonneg j, by exact_mod_cast hjc⟩]
    simp
  · intro px py hout
    simp only [Grid.cellFromPoint]
    rw [if_neg]
    rintro ⟨h1, h2, h3, h4⟩
    rcases hout with hout | hout | hout | hout
    · have : (px - g.x) / (g.cellWidth + 1) < 0 :=
        div_neg_of_neg_of_pos (by linarith) hpx
      have := Int.floor_nonneg.mp h3
      linarith
    · have hcm := g.columns_mul_pitchX hc
      have hq : (g.columns : ℚ) ≤ (px - g.x) / (g.cellWidth + 1) := by
        rw [le_div_iff hpx]
        nlinarith
      have hfl : (g.columns : ℤ) ≤ ⌊(px - g.x) / (g.cellWidth + 1)⌋ :=
        Int.le_floor.mpr (by exact_mod_cast hq)
      exact absurd h4 (not_lt.2 hfl)
    · have : (py - g.y) / (g.cellHeight + 1) < 0 :=
        div_neg_of_neg_of_pos (by linarith) hpy
      have := Int.floor_nonneg.mp h1
      linarith
    · have hrm := g.rows_mul_pitchY hr
      have hq : (g.rows : ℚ) ≤ (py - g.y) / (g.cellHeight + 1) := by
        rw [le_div_iff hpy]
        nlinarith
      have hfl : (g.rows : ℤ) ≤ ⌊(py - g.y) / (g.cellHeight + 1)⌋ :=
        Int.le_floor.mpr (by exact_mod_cast hq)
      exact absurd h2 (not_lt.2 hfl)
  · intro px py i j hsome
    simp only [Grid.cellFromPoint] at hsome
    by_cases hcond : 0 ≤ ⌊(py - g.y) / (g.cellHeight + 1)⌋ ∧
        ⌊(py - g.y) / (g.cellHeight + 1)⌋ < (g.rows : ℤ) ∧
        0 ≤ ⌊(px - g.x) / (g.cellWidth + 1)⌋ ∧
        ⌊(px - g.x) / (g.cellWidth + 1)⌋ < (g.columns : ℤ)
    · rw [if_pos hcond] at hsome
      obtain ⟨hi, hj⟩ := Prod.mk.injEq .. ▸ Option.some_injective _ hsome
      constructor
      · rw [← hi, Int.toNat_of_nonneg hcond.1]
      · rw [← hj, Int.toNat_of_nonneg hcond.2.2.1]
    · rw [if_neg hcond] at hsome
      exact absurd hsome (by simp)

/-- Witness for C1: in the concrete grid `2 × 3`, origin `(0,0)`, size
`10 × 10` (cells `2 × 7/2`, pitch `3 × 9/2`), the point `(5, 2)` lies in
cell `(0, 1)` and is resolved to it, and `(11, 2)` lies right of the
grid and resolves to no cell. -/
theorem grid_cellFromPoint_correct_witness :
    Grid.cellFromPoint ⟨2, 3, 0, 0, 10, 10⟩ 5 2 = some (0, 1) ∧
    Grid.cellFromPoint ⟨2, 3, 0, 0, 10, 10⟩ 11 2 = none := by
  have h := grid_cellFromPoint_correct ⟨2, 3, 0, 0, 10, 10⟩
    (by norm_num) (by norm_num) (by norm_num) (by norm_num)
  constructor
  · refine h.1 0 1 5 2 ?_
    refine ⟨by norm_num, by norm_num, ?_, ?_, ?_, ?_⟩ <;>
      norm_num [Grid.cellX, Grid.cellY, Grid.cellWidth, Grid.cellHeight]
  · exact h.2.1 11 2 (by norm_num)

/-- Propositional characterization of `inRect`. -/
lemma inRect_iff (x y w h : ℚ) (p : ℚ × ℚ) :
    (inRect x y w h p = true) ↔
      (x ≤ p.1 ∧ p.1 < x + w ∧ y ≤ p.2 ∧ p.2 < y + h) := by
  simp [inRect]

/-- An operation avoids the point `p`: its footprint does not cover
`p`. -/
def opAvoids (tf : TextFootprint) (p : ℚ × ℚ) : DrawOp → Prop
  | .clearRect x y w h => inRect x y w h p = false
  | .fillRect x y w h _ => inRect x y w h p = false
  | .drawImage _ x y w h => inRect x y w h p = false
  | .drawText s cx cy fs _ => tf s cx cy fs p = false

/-- Helper: an operation that avoids `p` leaves the canvas value at `p`
unchanged. -/
lemma applyOp_avoids (tf : TextFootprint) (c : Canvas) (op : DrawOp)
    (p : ℚ × ℚ) (h : opAvoids tf p op) : applyOp tf c op p = c p := by
  cases op <;> simp only [opAvoids] at h <;> simp [applyOp, h]

/-- Helper: a list of operations all avoiding `p` leaves the canvas
value at `p` unchanged. -/
lemma applyOps_avoids (tf : TextFootprint) (p : ℚ × ℚ) :
    ∀ (ops : List DrawOp) (c : Canvas), (∀ op ∈ ops, opAvoids tf p op) →
      applyOps tf c ops p = c p
  | [], _, _ => rfl
  | op :: rest, c, h => by
      rw [applyOps, applyOps_avoids tf p rest _
        (fun o ho => h o (List.mem_cons_of_mem _ ho))]
      exact applyOp_avoids tf c op p (h op (List.mem_cons_self _ _))

/-- Helper: the inner color rectangle `(x+0.5, y+0.5, w-1, h-1)` lies
inside the cell rectangle, so a point outside the cell rectangle is also
outside it. -/
lemma inRect_inner_false (x y w h : ℚ) (p : ℚ × ℚ)
    (houter : inRect x y w h p = false) :
    inRect (x + 1/2) (y + 1/2) (w - 1) (h - 1) p = false := by
  rcases Bool.eq_false_or_eq_true (inRect (x + 1/2) (y + 1/2) (w - 1) (h - 1) p)
    with hin | hin
  · rw [inRect_iff] at hin
    obtain ⟨h1, h2, h3, h4⟩ := hin
    have hout : inRect x y w h p = true :=
      (inRect_iff x y w h p).mpr ⟨by linarith, by linarith, by linarith, by linarith⟩
    rw [houter] at hout
    exact absurd hout (by simp)
  · exact hin

/-- C7 (amended): every setter of a `Cell` triggers an immediate redraw
(its emitted operations are exactly the new state's `draw()`
operations); the redraw's first operation clears exactly the cell's
pixel rectangle; and for a cell with no text and no custom-draw
callback, the whole redraw leaves every pixel outside the cell's
rectangle unchanged. -/
theorem cell_redraw_confined (tf : TextFootprint) (canvas : Canvas)
    (c : CellState) :
    (∀ v, (c.setColor v).2 = (c.setColor v).1.drawOps) ∧
    (∀ v, (c.setImage v).2 = (c.setImage v).1.drawOps) ∧
    (∀ v, (c.setText v).2 = (c.setText v).1.drawOps) ∧
    (∀ v, (c.setCustom v).2 = (c.setCustom v).1.drawOps) ∧
    (c.drawOps.head? = some (DrawOp.clearRect c.x c.y c.width c.height)) ∧
    (c.text = none → c.custom = none →
      ∀ p, inRect c.x c.y c.width c.height p = false →
        applyOps tf canvas c.drawOps p = canvas p) := by
  refine ⟨fun v => rfl, fun v => rfl, fun v => rfl, fun v => rfl, rfl, ?_⟩
  intro htext hcustom p hp
  refine applyOps_avoids tf p _ canvas ?_
  intro op hop
  rw [CellState.drawOps, htext, hcustom] at hop
  cases hcol : c.color <;> cases himg : c.image <;>
    rw [hcol, himg] at hop <;>
    simp only [Option.map_none', Option.map_some', Option.getD_none, Option.getD_some,
      List.append_nil, List.nil_append, List.mem_cons, List.mem_append,
      List.mem_singleton, List.not_mem_nil, or_false, false_or] at hop
  · rw [hop]
    exact hp
  · rcases hop with rfl | rfl
    · exact hp
    · exact hp
  · rcases hop with rfl | rfl
    · exact hp
    · exact inRect_inner_false c.x c.y c.width c.height p hp
  · rcases hop with rfl | rfl | rfl
    · exact hp
    · exact inRect_inner_false c.x c.y c.width c.height p hp
    · exact hp

/-- Witness for C7 (amended) at a concrete color-only cell: repainting
after a color assignment leaves the outside point `(50, 50)` unchanged. -/
theorem cell_redraw_confined_witness :
    applyOps (fun _ _ _ _ _ => false) (fun _ => 0)
      (CellState.drawOps ⟨0, 0, 0, 0, 10, 10, 10, 0, some 3, none, none, none⟩)
      (50, 50) = (fun _ : ℚ × ℚ => (0 : ℕ)) (50, 50) :=
  (cell_redraw_confined (fun _ _ _ _ _ => false) (fun _ => 0)
      ⟨0, 0, 0, 0, 10, 10, 10, 0, some 3, none, none, none⟩).2.2.2.2.2
    rfl rfl (50, 50) (by norm_num [inRect])

/-- C7 counterexample: for a cell whose `custom` callback paints the
pixel square at `(100, 100)`, the immediate redraw triggered by the
`custom` setter changes the pixel `(100, 100)` — a point outside the
cell's rectangle `(0, 0, 10, 10)` — so the redraw does not leave every
pixel outside the cell's rectangle unchanged. -/
theorem cell_redraw_escapes_rectangle :
    inRect 0 0 10 10 (100, 100) = false ∧
    applyOps (fun _ _ _ _ _ => false) (fun _ => 0)
        ((CellState.setCustom ⟨0, 0, 0, 0, 10, 10, 10, 0, none, none, none, none⟩
          (some [DrawOp.fillRect 100 100 1 1 5])).2) (100, 100)
      ≠ (fun _ : ℚ × ℚ => (0 : ℕ)) (100, 100) := by
  have h1 : inRect 100 100 1 1 (100, 100) = true := by norm_num [inRect]
  have h2 : inRect 0 0 10 10 (100, 100) = false := by norm_num [inRect]
  have hops : (CellState.setCustom ⟨0, 0, 0, 0, 10, 10, 10, 0, none, none, none, none⟩
      (some [DrawOp.fillRect 100 100 1 1 5])).2
      = [DrawOp.clearRect 0 0 10 10, DrawOp.fillRect 100 100 1 1 5] := rfl
  refine ⟨h2, ?_⟩
  rw [hops]
  simp [applyOps, applyOp, h1, h2]

/-! ## Driven sprite runs (for the temporal claim)

The browser's `requestAnimationFrame` loop calls `update()` once per
frame with the measured elapsed time `deltaTime`; a driven run is the
sprite state after `n` such calls, the `k`-th call using elapsed time
`dts k`. -/

/-- The sprite state after `n` calls of `update()`, the `k`-th call
receiving elapsed time `dts k`. -/
def runSeq (dts : ℕ → ℚ) (s : SpriteState) : ℕ → SpriteState
  | 0 => s
  | n + 1 => (runSeq dts s n).update (dts n)

/-- Helper: an update with a still non-negative budget only decrements
the budget. -/
lemma update_nonneg (s : SpriteState) (dt : ℚ) (h : 0 ≤ s.remainingTime - dt) :
    s.update dt = { s with remainingTime := s.remainingTime - dt } := by
  simp only [SpriteState.update]
  rw [if_neg (not_lt.2 h)]

/-- Helper: a firing update below the last frame increments the index. -/
lemma update_neg_mid (s : SpriteState) (dt : ℚ) (h : s.remainingTime - dt < 0)
    (hi : s.index + 1 < s.frames.length) :
    s.update dt =
      { s with index := s.index + 1,
               remainingTime := s.remainingTime - dt + 1000 / s.framesPerSecond } := by
  simp only [SpriteState.update]
  rw [if_pos h, if_neg (by omega : ¬((s.frames.length : ℤ) - 1 ≤ (s.index : ℤ)))]

/-- Helper: a firing update at the last frame of a non-looping sprite
sets `finished` and keeps the index. -/
lemma update_neg_last_noloop (s : SpriteState) (dt : ℚ)
    (h : s.remainingTime - dt < 0) (hi : s.frames.length ≤ s.index + 1)
    (hl : s.loop = false) :
    s.update dt =
      { s with finished := true,
               remainingTime := s.remainingTime - dt + 1000 / s.framesPerSecond } := by
  simp only [SpriteState.update]
  rw [if_pos h, if_pos (by omega : (s.frames.length : ℤ) - 1 ≤ (s.index : ℤ)),
    if_neg (by simp [hl])]

/-- Helper: `update()` never changes the frames list. -/
lemma update_frames (s : SpriteState) (dt : ℚ) :
    (s.update dt).frames = s.frames := by
  simp only [SpriteState.update]
  split_ifs <;> rfl

/-- Helper: `update()` never changes the loop flag. -/
lemma update_loop (s : SpriteState) (dt : ℚ) :
    (s.update dt).loop = s.loop := by
  simp only [SpriteState.update]
  split_ifs <;> rfl

/-- Helper: `update()` never clears `finished`. -/
lemma update_finished_mono (s : SpriteState) (dt : ℚ)
    (h : s.finished = true) : (s.update dt).finished = true := by
  simp only [SpriteState.update]
  split_ifs <;> first | exact h | rfl

/-- Helper: in one update the index is unchanged, incremented below the
last frame, or wrapped to `0` from the last frame. -/
lemma update_index_cases (s : SpriteState) (dt : ℚ) :
    (s.update dt).index = s.index ∨
    ((s.update dt).index = s.index + 1 ∧ s.index + 1 < s.frames.length) ∨
    ((s.update dt).index = 0 ∧ s.frames.length ≤ s.index + 1) := by
  simp only [SpriteState.update]
  split_ifs with h1 h2 h3
  · exact Or.inr (Or.inr ⟨rfl, by omega⟩)
  · exact Or.inl rfl
  · exact Or.inr (Or.inl ⟨rfl, by omega⟩)
  · exact Or.inl rfl

/-- Helper: `update()` keeps the index inside the frames list. -/
lemma update_index_lt (s : SpriteState) (dt : ℚ)
    (h : s.index < s.frames.length) :
    (s.update dt).index < s.frames.length := by
  rcases update_index_cases s dt with hc | ⟨hc, hb⟩ | ⟨hc, _⟩ <;> rw [hc] <;> omega

/-- Helper: `finished` is set (from `false`) only by a firing update at
the last frame, which keeps the index. -/
lemma update_finished_new (s : SpriteState) (dt : ℚ)
    (h0 : s.finished = false) (h1 : (s.update dt).finished = true) :
    s.frames.length ≤ s.index + 1 ∧ (s.update dt).index = s.index := by
  revert h1
  simp only [SpriteState.update]
  split_ifs with hfire hlast hloop
  · intro h1
    rw [h0] at h1
    cases h1
  · intro _
    exact ⟨by omega, rfl⟩
  · intro h1
    rw [h0] at h1
    cases h1
  · intro h1
    rw [h0] at h1
    cases h1

/-- Step `k` of a driven run fires: the budget would go negative. -/
def firesAt (dts : ℕ → ℚ) (s : SpriteState) (k : ℕ) : Prop :=
  (runSeq dts s k).remainingTime - dts k < 0

/-- Helper: over a fire-free interval the index and the finished flag
are constant. -/
lemma runSeq_const_no_fire (dts : ℕ → ℚ) (s : SpriteState) (n : ℕ) :
    ∀ m, n ≤ m → (∀ k, n ≤ k → k < m → ¬ firesAt dts s k) →
      (runSeq dts s m).index = (runSeq dts s n).index ∧
      (runSeq dts s m).finished = (runSeq dts s n).finished := by
  intro m hnm
  induction m, hnm using Nat.le_induction with
  | base => intro _; exact ⟨rfl, rfl⟩
  | succ m hm ih =>
      intro hall
      have hprev := ih fun k hk1 hk2 => hall k hk1 (by omega)
      have hnf : ¬ firesAt dts s m := hall m hm (by omega)
      have hge : 0 ≤ (runSeq dts s m).remainingTime - dts m := not_lt.1 hnf
      have hupd := update_nonneg (runSeq dts s m) (dts m) hge
      constructor
      · show ((runSeq dts s m).update (dts m)).index = _
        rw [hupd]
        exact hprev.1
      · show ((runSeq dts s m).update (dts m)).finished = _
        rw [hupd]
        exact hprev.2

/-- Helper: with every elapsed time at least `δ > 0`, some step at or
after `n` fires within `⌈budget/δ⌉` steps, and no step before it does. -/
lemma exists_fire (dts : ℕ → ℚ) (δ : ℚ) (hδ : 0 < δ) (hdts : ∀ k, δ ≤ dts k)
    (s : SpriteState) :
    ∀ (f n : ℕ), (runSeq dts s n).remainingTime ≤ f * δ →
      ∃ m, n ≤ m ∧ (∀ k, n ≤ k → k < m → ¬ firesAt dts s k) ∧ firesAt dts s m := by
  intro f
  induction f with
  | zero =>
      intro n hr
      push_cast at hr
      refine ⟨n, le_refl n, fun k hk1 hk2 => absurd (lt_of_le_of_lt hk1 hk2)
        (lt_irrefl n), ?_⟩
      have hd := hdts n
      show (runSeq dts s n).remainingTime - dts n < 0
      linarith
  | succ f ih =>
      intro n hr
      by_cases hf : firesAt dts s n
      · exact ⟨n, le_refl n, fun k hk1 hk2 => absurd (lt_of_le_of_lt hk1 hk2)
          (lt_irrefl n), hf⟩
      · have hge : 0 ≤ (runSeq dts s n).remainingTime - dts n := not_lt.1 hf
        have hupd := update_nonneg (runSeq dts s n) (dts n) hge
        have hr' : (runSeq dts s (n + 1)).remainingTime ≤ f * δ := by
          show ((runSeq dts s n).update (dts n)).remainingTime ≤ f * δ
          rw [hupd]
          show (runSeq dts s n).remainingTime - dts n ≤ f * δ
          have hd := hdts n
          push_cast at hr
          linarith
        obtain ⟨m, hm1, hm2, hm3⟩ := ih (n + 1) hr'
        refine ⟨m, by omega, ?_, hm3⟩
        intro k hk1 hk2
        rcases Nat.eq_or_lt_of_le hk1 with heq | hlt
        · exact heq ▸ hf
        · exact hm2 k hlt hk2

/-- C3: a sprite starting at index `0`, not finished, with a non-empty
frames list, driven by updates whose elapsed times are all at least some
`δ > 0`: the index visits every position of the frames array; it always
stays in range; each step keeps it, increments it (below the last
position), or wraps it to `0` (from the last position) — so the
positions are taken in order without skipping; `finished` turns `true`
only from the last position; and for a non-looping sprite there is a
single step `N` before which `finished` is always `false` and from which
it is forever `true` — it is set exactly once and never reverts. -/
theorem sprite_frames_in_order_finished_once
    (dts : ℕ → ℚ) (δ : ℚ) (hδ : 0 < δ) (hdts : ∀ k, δ ≤ dts k)
    (s0 : SpriteState) (h0 : s0.index = 0) (hfin0 : s0.finished = false)
    (hL : 0 < s0.frames.length) :
    (∀ j, j < s0.frames.length → ∃ n, (runSeq dts s0 n).index = j) ∧
    (∀ n, (runSeq dts s0 n).index < s0.frames.length) ∧
    (∀ n, (runSeq dts s0 (n + 1)).index = (runSeq dts s0 n).index ∨
      ((runSeq dts s0 (n + 1)).index = (runSeq dts s0 n).index + 1 ∧
        (runSeq dts s0 n).index + 1 < s0.frames.length) ∨
      ((runSeq dts s0 (n + 1)).index = 0 ∧
        s0.frames.length ≤ (runSeq dts s0 n).index + 1)) ∧
    (∀ n, (runSeq dts s0 n).finished = false →
      (runSeq dts s0 (n + 1)).finished = true →
      s0.frames.length ≤ (runSeq dts s0 n).index + 1) ∧
    (s0.loop = false →
      ∃ N, ∀ k, ((runSeq dts s0 k).finished = true ↔ N ≤ k)) := by
  have hframes : ∀ n, (runSeq dts s0 n).frames = s0.frames := by
    intro n
    induction n with
    | zero => rfl
    | succ n ih =>
        show ((runSeq dts s0 n).update (dts n)).frames = s0.frames
        rw [update_frames]
        exact ih
  have hloopc : ∀ n, (runSeq dts s0 n).loop = s0.loop := by
    intro n
    induction n with
    | zero => rfl
    | succ n ih =>
        show ((runSeq dts s0 n).update (dts n)).loop = s0.loop
        rw [update_loop]
        exact ih
  have hidx : ∀ n, (runSeq dts s0 n).index < s0.frames.length := by
    intro n
    induction n with
    | zero => rw [runSeq, h0]; exact hL
    | succ n ih =>
        have := update_index_lt (runSeq dts s0 n) (dts n)
          (by rw [hframes n]; exact ih)
        rw [hframes n] at this
        exact this
  have hfuel : ∀ n, ∃ f : ℕ, (runSeq dts s0 n).remainingTime ≤ f * δ := by
    intro n
    obtain ⟨f, hf⟩ := exists_nat_ge ((runSeq dts s0 n).remainingTime / δ)
    exact ⟨f, by rw [div_le_iff hδ] at hf; linarith⟩
  have htrav : ∀ j, j < s0.frames.length →
      ∃ n, (runSeq dts s0 n).index = j := by
    intro j
    induction j with
    | zero => intro _; exact ⟨0, h0⟩
    | succ j ihj =>
        intro hj
        obtain ⟨n, hn⟩ := ihj (by omega)
        obtain ⟨f, hf⟩ := hfuel n
        obtain ⟨m, hm1, hm2, hm3⟩ := exists_fire dts δ hδ hdts s0 f n hf
        have hconst := runSeq_const_no_fire dts s0 n m hm1 hm2
        have hidxm : (runSeq dts s0 m).index = j := hconst.1.trans hn
        have hmid : (runSeq dts s0 m).index + 1 < (runSeq dts s0 m).frames.length := by
          rw [hframes m, hidxm]
          exact hj
        have hupd := update_neg_mid (runSeq dts s0 m) (dts m) hm3 hmid
        refine ⟨m + 1, ?_⟩
        show ((runSeq dts s0 m).update (dts m)).index = j + 1
        rw [hupd]
        show (runSeq dts s0 m).index + 1 = j + 1
        rw [hidxm]
  have hfinmono : ∀ n m, n ≤ m → (runSeq dts s0 n).finished = true →
      (runSeq dts s0 m).finished = true := by
    intro n m hnm
    induction m, hnm using Nat.le_induction with
    | base => exact id
    | succ m hm ih =>
        intro h
        exact update_finished_mono (runSeq dts s0 m) (dts m) (ih h)
  refine ⟨htrav, hidx, ?_, ?_, ?_⟩
  · intro n
    have hc := update_index_cases (runSeq dts s0 n) (dts n)
    rw [hframes n] at hc
    exact hc
  · intro n h1 h2
    have hc := update_finished_new (runSeq dts s0 n) (dts n) h1 h2
    rw [hframes n] at hc
    exact hc.1
  · intro hl
    have hfin_ev : ∃ k, (runSeq dts s0 k).finished = true := by
      obtain ⟨n, hn⟩ := htrav (s0.frames.length - 1) (by omega)
      obtain ⟨f, hf⟩ := hfuel n
      obtain ⟨m, hm1, hm2, hm3⟩ := exists_fire dts δ hδ hdts s0 f n hf
      have hconst := runSeq_const_no_fire dts s0 n m hm1 hm2
      by_cases hfm : (runSeq dts s0 m).finished = true
      · exact ⟨m, hfm⟩
      · have hlast : (runSeq dts s0 m).frames.length ≤ (runSeq dts s0 m).index + 1 := by
          rw [hframes m, hconst.1.trans hn]
          omega
        have hupd := update_neg_last_noloop (runSeq dts s0 m) (dts m) hm3 hlast
          (by rw [hloopc m]; exact hl)
        refine ⟨m + 1, ?_⟩
        show ((runSeq dts s0 m).update (dts m)).finished = true
        rw [hupd]
    have hdec : DecidablePred fun k => (runSeq dts s0 k).finished = true :=
      fun k => instDecidableEqBool _ _
    refine ⟨@Nat.find _ hdec hfin_ev, ?_⟩
    intro k
    constructor
    · intro hk
      by_contra hlt
      push_neg at hlt
      exact absurd hk (@Nat.find_min _ hdec hfin_ev k hlt)
    · intro hk
      exact hfinmono _ k hk (@Nat.find_spec _ hdec hfin_ev)

/-- Witness for C3 at the concrete non-looping sprite
`⟨0, 10, [0, 1], no-loop, not finished, 10 fps⟩` driven with constant
elapsed time `100`. -/
theorem sprite_frames_in_order_finished_once_witness :
    ∃ n, (runSeq (fun _ => 100) ⟨0, 10, [0, 1], false, false, 10⟩ n).index = 1 :=
  (sprite_frames_in_order_finished_once (fun _ => 100) 100 (by norm_num)
      (fun k => le_refl 100) ⟨0, 10, [0, 1], false, false, 10⟩ rfl rfl
      (by norm_num)).1 1 (by norm_num)

/-- C3 counterexample: with merely *positive* elapsed times the claim
fails — driving the concrete two-frame sprite
`⟨0, 10, [0, 1], no-loop, not finished, 12 fps⟩` with the positive
elapsed times `10 / 2^(k+1)` (which sum below the initial budget `10`)
never advances the frame index, so position `1` of the frames array is
never taken. -/
theorem sprite_stalls_on_vanishing_times :
    (∀ k : ℕ, 0 < (10 : ℚ) / 2 ^ (k + 1)) ∧
    ¬ ∃ n, (runSeq (fun k => (10 : ℚ) / 2 ^ (k + 1))
        ⟨0, 10, [0, 1], false, false, 12⟩ n).index = 1 := by
  have hstate : ∀ n, runSeq (fun k => (10 : ℚ) / 2 ^ (k + 1))
      ⟨0, 10, [0, 1], false, false, 12⟩ n
      = ⟨0, 10 / 2 ^ n, [0, 1], false, false, 12⟩ := by
    intro n
    induction n with
    | zero =>
        show SpriteState.mk 0 10 [0, 1] false false 12
          = SpriteState.mk 0 (10 / 2 ^ 0) [0, 1] false false 12
        norm_num
    | succ n ih =>
        have harith : (10 : ℚ) / 2 ^ n - 10 / 2 ^ (n + 1) = 10 / 2 ^ (n + 1) := by
          have h2 : ((2 : ℚ) ^ n) ≠ 0 := by positivity
          rw [pow_succ]
          field_simp
          ring
        show (runSeq (fun k => (10 : ℚ) / 2 ^ (k + 1))
            ⟨0, 10, [0, 1], false, false, 12⟩ n).update (10 / 2 ^ (n + 1)) = _
        rw [ih, update_nonneg _ _ (by
          show (0 : ℚ) ≤ 10 / 2 ^ n - 10 / 2 ^ (n + 1)
          rw [harith]
          positivity)]
        show SpriteState.mk 0 ((10 : ℚ) / 2 ^ n - 10 / 2 ^ (n + 1)) [0, 1] false false 12
          = SpriteState.mk 0 ((10 : ℚ) / 2 ^ (n + 1)) [0, 1] false false 12
        rw [harith]
  refine ⟨fun k => by positivity, ?_⟩
  rintro ⟨n, hn⟩
  rw [hstate n] at hn
  exact absurd hn (by norm_num)

end Balder
